import Mathlib

/-!
Shallow embedding of the ygo-metadata-pipeline repository
(src/src/models.py, src/src/pipelines/sync_cards.py,
src/src/pipelines/sync_banlist.py, src/src/pipelines/sync_images.py,
src/src/pipelines/sync_cropped_images.py).

External effects (the Supabase store, the HTTP session, S3) are modelled by
outcome oracles: total functions that say, for each call the code makes,
whether that call succeeds and what it returns.  Logging, sleeping and
wall-clock timing carry no semantic content for the verified claims and are
omitted.  Python ints are modelled as Int (counters) or Nat (sizes, ids);
floats that the claims touch are modelled as Rat.
-/

namespace YgoPipeline

/-- `SyncResult` from src/src/models.py (lines 73-78).  `elapsed_seconds` is a
wall-clock float that no verified claim depends on, so it is omitted. -/
structure SyncResult where
  total : Int
  successful : Int
  failed : Int
  skipped : Int
deriving DecidableEq

/-- Division guarded against a zero denominator, standing for Python `/`,
which raises `ZeroDivisionError` on a zero denominator (`none` = the raise). -/
def divQ (a b : ℚ) : Option ℚ :=
  if b = 0 then none else some (a / b)

/-- `SyncResult.success_rate` from src/src/models.py (lines 80-84):
`if self.total == 0: return 100.0` and otherwise
`(self.successful / self.total) * 100`, with the division modelled by the
guarded `divQ`. -/
def success_rate (r : SyncResult) : Option ℚ :=
  if r.total = 0 then some 100
  else (divQ (r.successful : ℚ) (r.total : ℚ)).map (fun q => q * 100)

/-- Outcome oracle for the keyed store used by the batch-upsert engine
(`client.table(table).upsert(...).execute()` in sync_cards.py /
sync_banlist.py): `batchOk b` says whether the bulk upsert of batch `b`
succeeds, `recOk r` whether the individual retry upsert of record `r`
succeeds. -/
structure StoreOracle (R : Type) where
  batchOk : List R → Bool
  recOk : R → Bool

/-- `records[i : i + batch_size]` slicing driven by
`range(0, total, batch_size)`: consecutive chunks of size `bs` (last chunk may
be smaller).  Fuel-indexed so the recursion is structural; `chunks` supplies
enough fuel. -/
def chunksAux (bs : Nat) : Nat → List α → List (List α)
  | 0, _ => []
  | _ + 1, [] => []
  | fuel + 1, x :: xs => (x :: xs).take bs :: chunksAux bs fuel ((x :: xs).drop bs)

/-- Partition a list into consecutive chunks of size `bs`. -/
def chunks (bs : Nat) (l : List α) : List (List α) :=
  chunksAux bs l.length l

/-- The inner per-record retry loop of `batch_upsert` (sync_cards.py lines
133-142) and `batch_upsert_banlist` (sync_banlist.py lines 141-150): for each
record of the failed batch, an individual upsert; on success
`successful += 1; failed -= 1`. -/
def retryRecords (o : StoreOracle R) (batch : List R) (acc : Int × Int) : Int × Int :=
  batch.foldl (fun sf r => if o.recOk r then (sf.1 + 1, sf.2 - 1) else sf) acc

/-- One iteration of the batch loop of `batch_upsert` (sync_cards.py lines
116-145): on bulk success `successful += len(batch)`; on bulk failure
`failed += len(batch)` followed by the per-record retry loop. -/
def processBatch (o : StoreOracle R) (acc : Int × Int) (batch : List R) : Int × Int :=
  if o.batchOk batch then (acc.1 + batch.length, acc.2)
  else retryRecords o batch (acc.1, acc.2 + batch.length)

/-- The `(successful, failed)` counters returned by `batch_upsert`
(sync_cards.py lines 101-147) and by the structurally identical
`batch_upsert_banlist` (sync_banlist.py lines 113-155), parameterised by the
store oracle and the batch size from settings. -/
def batch_upsert_counts (o : StoreOracle R) (records : List R) (bs : Nat) : Int × Int :=
  (chunks bs records).foldl (processBatch o) (0, 0)

/-- The per-batch contribution the spec describes: a succeeding batch of `n`
records contributes `(n, 0)`; a failing batch of `n` records of which `k`
individually succeed contributes `(k, n - k)`. -/
def specContribution (o : StoreOracle R) (batch : List R) : Int × Int :=
  if o.batchOk batch then ((batch.length : Int), 0)
  else (((batch.filter o.recOk).length : Int),
        (batch.length : Int) - ((batch.filter o.recOk).length : Int))

lemma retryRecords_closed (o : StoreOracle R) (batch : List R) (s f : Int) :
    retryRecords o batch (s, f) =
      (s + ((batch.filter o.recOk).length : Int),
       f - ((batch.filter o.recOk).length : Int)) := by
  induction batch generalizing s f with
  | nil => simp [retryRecords]
  | cons x xs ih =>
      cases hx : o.recOk x with
      | true =>
          simp only [retryRecords, List.foldl_cons, hx, if_true] at ih ⊢
          rw [ih]
          simp only [List.filter_cons, hx, if_true, List.length_cons]
          have h1 : s + 1 + ((xs.filter o.recOk).length : Int) =
              s + (((xs.filter o.recOk).length + 1 : Nat) : Int) := by push_cast; ring
          have h2 : f - 1 - ((xs.filter o.recOk).length : Int) =
              f - (((xs.filter o.recOk).length + 1 : Nat) : Int) := by push_cast; ring
          rw [h1, h2]
      | false =>
          simp only [retryRecords, List.foldl_cons, hx, Bool.false_eq_true, if_false] at ih ⊢
          rw [ih]
          simp [List.filter_cons, hx]

lemma processBatch_closed (o : StoreOracle R) (acc : Int × Int) (batch : List R) :
    processBatch o acc batch =
      (acc.1 + (specContribution o batch).1, acc.2 + (specContribution o batch).2) := by
  unfold processBatch specContribution
  by_cases hb : o.batchOk batch
  · simp [hb]
  · simp only [hb, Bool.false_eq_true, if_false]
    rw [retryRecords_closed]
    have : acc.2 + (batch.length : Int) - ((batch.filter o.recOk).length : Int) =
        acc.2 + ((batch.length : Int) - ((batch.filter o.recOk).length : Int)) := by ring
    rw [this]

lemma specContribution_sum (o : StoreOracle R) (batch : List R) :
    (specContribution o batch).1 + (specContribution o batch).2 = (batch.length : Int) := by
  unfold specContribution
  by_cases hb : o.batchOk batch
  · simp [hb]
  · simp [hb]

lemma specContribution_nonneg (o : StoreOracle R) (batch : List R) :
    0 ≤ (specContribution o batch).1 ∧ 0 ≤ (specContribution o batch).2 := by
  unfold specContribution
  by_cases hb : o.batchOk batch
  · simp [hb]
  · have hle : (batch.filter o.recOk).length ≤ batch.length := List.length_filter_le _ _
    simp only [hb, if_false, Bool.false_eq_true]
    constructor
    · exact Int.ofNat_nonneg _
    · simp only [sub_nonneg]
      exact_mod_cast hle

lemma chunksAux_flatten (bs : Nat) (hbs : 0 < bs) :
    ∀ fuel (l : List α), l.length ≤ fuel → (chunksAux bs fuel l).flatten = l := by
  intro fuel
  induction fuel with
  | zero =>
      intro l hl
      have : l = [] := List.eq_nil_of_length_eq_zero (Nat.le_zero.mp hl)
      subst this
      simp [chunksAux]
  | succ n ih =>
      intro l hl
      cases l with
      | nil => simp [chunksAux]
      | cons x xs =>
          simp only [chunksAux, List.flatten_cons]
          rw [ih ((x :: xs).drop bs)]
          · exact List.take_append_drop bs (x :: xs)
          · have hlen : ((x :: xs).drop bs).length = (x :: xs).length - bs := by
              simp [List.length_drop]
            rw [hlen]
            have hxl : (x :: xs).length ≤ n + 1 := hl
            omega

lemma chunks_flatten (bs : Nat) (hbs : 0 < bs) (l : List α) :
    (chunks bs l).flatten = l :=
  chunksAux_flatten bs hbs l.length l (le_refl _)

lemma batch_upsert_counts_foldl (o : StoreOracle R) (records : List R) (bs : Nat) :
    batch_upsert_counts o records bs =
      (chunks bs records).foldl
        (fun acc b => (acc.1 + (specContribution o b).1, acc.2 + (specContribution o b).2))
        (0, 0) := by
  unfold batch_upsert_counts
  congr 1
  funext acc b
  exact processBatch_closed o acc b

lemma foldl_spec_sum (o : StoreOracle R) (bl : List (List R)) (s f : Int) :
    (bl.foldl
        (fun acc b => (acc.1 + (specContribution o b).1, acc.2 + (specContribution o b).2))
        (s, f)).1 +
      (bl.foldl
        (fun acc b => (acc.1 + (specContribution o b).1, acc.2 + (specContribution o b).2))
        (s, f)).2 = s + f + (bl.flatten.length : Int) := by
  induction bl generalizing s f with
  | nil => simp
  | cons b bl ih =>
      simp only [List.foldl_cons, List.flatten_cons, List.length_append]
      rw [ih]
      have := specContribution_sum o b
      push_cast
      omega

lemma foldl_spec_nonneg (o : StoreOracle R) (bl : List (List R)) (s f : Int)
    (hs : 0 ≤ s) (hf : 0 ≤ f) :
    0 ≤ (bl.foldl
        (fun acc b => (acc.1 + (specContribution o b).1, acc.2 + (specContribution o b).2))
        (s, f)).1 ∧
    0 ≤ (bl.foldl
        (fun acc b => (acc.1 + (specContribution o b).1, acc.2 + (specContribution o b).2))
        (s, f)).2 := by
  induction bl generalizing s f with
  | nil => exact ⟨hs, hf⟩
  | cons b bl ih =>
      simp only [List.foldl_cons]
      have hc := specContribution_nonneg o b
      exact ih (s + (specContribution o b).1) (f + (specContribution o b).2)
        (by omega) (by omega)

/-- Effect of one row upsert on the keyed store, modelled as a map from
conflict key to row: `upsert(row, on_conflict=key)` overwrites any existing
row sharing the conflict key and inserts otherwise. -/
def upsertRow {K R : Type} [DecidableEq K] (key : R → K) (store : K → Option R) (r : R) :
    K → Option R :=
  fun k => if k = key r then some r else store k

/-- Effect on the store of upserting a list of rows in order (what one bulk
upsert call, or a sequence of single-row upserts, does when the store accepts
the writes). -/
def applyUpserts {K R : Type} [DecidableEq K] (key : R → K) (store : K → Option R) (records : List R) :
    K → Option R :=
  records.foldl (upsertRow key) store

/-- The rows that `batch_upsert` actually writes to the store, in order: a
batch whose bulk call succeeds writes the whole batch; a batch whose bulk call
fails writes exactly its individually-succeeding records (via the per-record
retry loop). -/
def appliedWrites (o : StoreOracle R) (bs : Nat) (records : List R) : List R :=
  (chunks bs records).foldl
    (fun acc b => acc ++ (if o.batchOk b then b else b.filter o.recOk)) []

/-- The store state after `batch_upsert` runs (sync_cards.py lines 116-145),
starting from `store`. -/
def batch_upsert_state {K R : Type} [DecidableEq K] (key : R → K) (o : StoreOracle R)
    (store : K → Option R) (records : List R) (bs : Nat) : K → Option R :=
  applyUpserts key store (appliedWrites o bs records)

/-- The last row of `records` whose conflict key is `k`, if any: the row that
wins at key `k` after upserting `records` in order. -/
def lastWrite {K R : Type} [DecidableEq K] (key : R → K) (k : K) (records : List R) : Option R :=
  records.foldl (fun acc r => if key r = k then some r else acc) none

lemma lastWrite_foldl_init {K R : Type} [DecidableEq K] (key : R → K) (k : K)
    (rs : List R) (init : Option R) :
    rs.foldl (fun acc x => if key x = k then some x else acc) init =
      match rs.foldl (fun acc x => if key x = k then some x else acc) none with
      | some w => some w
      | none => init := by
  induction rs generalizing init with
  | nil => simp
  | cons x rs ih =>
      simp only [List.foldl_cons]
      rw [ih (if key x = k then some x else init), ih (if key x = k then some x else none)]
      cases hrest : rs.foldl (fun acc x => if key x = k then some x else acc) none with
      | some w => rfl
      | none =>
          by_cases hx : key x = k
          · simp [hx]
          · simp [hx]

lemma applyUpserts_apply {K R : Type} [DecidableEq K] (key : R → K) (store : K → Option R)
    (records : List R) (k : K) :
    applyUpserts key store records k =
      match lastWrite key k records with
      | some r => some r
      | none => store k := by
  induction records generalizing store with
  | nil => simp [applyUpserts, lastWrite]
  | cons r rs ih =>
      simp only [applyUpserts, List.foldl_cons, lastWrite] at ih ⊢
      rw [ih, lastWrite_foldl_init key k rs (if key r = k then some r else none)]
      cases hrest : rs.foldl (fun acc x => if key x = k then some x else acc) none with
      | some w => rfl
      | none =>
          by_cases hr : key r = k
          · simp [upsertRow, hr]
          · have hk : ¬ k = key r := fun h => hr h.symm
            simp [upsertRow, hr, hk]

lemma applyUpserts_idem {K R : Type} [DecidableEq K] (key : R → K) (store : K → Option R)
    (records : List R) :
    applyUpserts key (applyUpserts key store records) records =
      applyUpserts key store records := by
  funext k
  rw [applyUpserts_apply, applyUpserts_apply]
  cases hlast : lastWrite key k records with
  | none => rfl
  | some w => rfl

lemma applyUpserts_append {K R : Type} [DecidableEq K] (key : R → K) (store : K → Option R)
    (l₁ l₂ : List R) :
    applyUpserts key store (l₁ ++ l₂) =
      applyUpserts key (applyUpserts key store l₁) l₂ := by
  simp [applyUpserts, List.foldl_append]

lemma appliedWrites_allOk (o : StoreOracle R) (bs : Nat) (hbs : 0 < bs)
    (records : List R) (hok : ∀ b, o.batchOk b = true) :
    appliedWrites o bs records = records := by
  unfold appliedWrites
  have h : ∀ (bl : List (List R)) (acc : List R),
      bl.foldl (fun acc b => acc ++ (if o.batchOk b then b else b.filter o.recOk)) acc =
        acc ++ bl.flatten := by
    intro bl
    induction bl with
    | nil => intro acc; simp
    | cons b bl ih =>
        intro acc
        simp only [List.foldl_cons, hok b, if_true, List.flatten_cons]
        rw [ih]
        simp
  rw [h, chunks_flatten bs hbs]
  simp

/-- Concrete store oracle for the batch-degradation example: every bulk call
fails, and exactly the records numbered 0..6 succeed on individual retry. -/
def degradationOracle : StoreOracle Nat :=
  { batchOk := fun _ => false, recOk := fun r => decide (r < 7) }

/-- All-success store oracle over key-value pairs, used to exercise the
store-state claims. -/
def allOkOracle : StoreOracle (Nat × Nat) :=
  { batchOk := fun _ => true, recOk := fun _ => true }

/-- C1: for every record list and batch size, the counts `batch_upsert`
returns are the batch-wise accumulation of per-batch contributions, where a
batch whose bulk upsert call fails contributes exactly the count of its
individually-succeeding records as successful and the still-failing rest as
failed (`(k, n - k)` for a failing batch of `n` records with `k`
individually-recoverable ones), and a succeeding batch contributes
`(n, 0)`. -/
theorem C1_batch_degradation {R : Type} (o : StoreOracle R) (records : List R)
    (bs : Nat) (hbs : 0 < bs) :
    batch_upsert_counts o records bs =
      (chunks bs records).foldl
        (fun acc b => (acc.1 + (specContribution o b).1, acc.2 + (specContribution o b).2))
        (0, 0) ∧
    (∀ b : List R, o.batchOk b = false →
      specContribution o b =
        (((b.filter o.recOk).length : Int),
         (b.length : Int) - ((b.filter o.recOk).length : Int))) ∧
    (∀ b : List R, o.batchOk b = true →
      specContribution o b = ((b.length : Int), 0)) := by
  refine ⟨batch_upsert_counts_foldl o records bs, ?_, ?_⟩
  · intro b hb
    simp [specContribution, hb]
  · intro b hb
    simp [specContribution, hb]

/-- Witness for C1 at a concrete input: a single batch of 10 records whose
bulk call fails and of which exactly 7 succeed individually is reported as 7
successful and 3 failed, not 0/10. -/
theorem C1_batch_degradation_witness :
    0 < 10 ∧
    (batch_upsert_counts degradationOracle (List.range 10) 10 =
      (chunks 10 (List.range 10)).foldl
        (fun acc b =>
          (acc.1 + (specContribution degradationOracle b).1,
           acc.2 + (specContribution degradationOracle b).2))
        (0, 0) ∧
    (∀ b : List Nat, degradationOracle.batchOk b = false →
      specContribution degradationOracle b =
        (((b.filter degradationOracle.recOk).length : Int),
         (b.length : Int) - ((b.filter degradationOracle.recOk).length : Int))) ∧
    (∀ b : List Nat, degradationOracle.batchOk b = true →
      specContribution degradationOracle b = ((b.length : Int), 0))) ∧
    batch_upsert_counts degradationOracle (List.range 10) 10 = (7, 3) :=
  ⟨by decide, C1_batch_degradation degradationOracle (List.range 10) 10 (by decide),
   by decide⟩

/-- C4: for every record list, store-outcome oracle and positive batch size,
`batch_upsert` returns a pair `(successful, failed)` with
`successful + failed` equal to the length of the input list and both counts
non-negative.  The same statement covers `batch_upsert_banlist`, whose
counting loop is embedded by the same `batch_upsert_counts`. -/
theorem C4_conservation {R : Type} (o : StoreOracle R) (records : List R)
    (bs : Nat) (hbs : 0 < bs) :
    (batch_upsert_counts o records bs).1 + (batch_upsert_counts o records bs).2 =
      (records.length : Int) ∧
    0 ≤ (batch_upsert_counts o records bs).1 ∧
    0 ≤ (batch_upsert_counts o records bs).2 := by
  rw [batch_upsert_counts_foldl]
  refine ⟨?_, foldl_spec_nonneg o (chunks bs records) 0 0 (le_refl 0) (le_refl 0)⟩
  rw [foldl_spec_sum, chunks_flatten bs hbs]
  ring

/-- Witness for C4 at a concrete input: the 10-record degradation example
satisfies conservation and non-negativity. -/
theorem C4_conservation_witness :
    0 < 10 ∧
    ((batch_upsert_counts degradationOracle (List.range 10) 10).1 +
        (batch_upsert_counts degradationOracle (List.range 10) 10).2 =
      ((List.range 10).length : Int) ∧
    0 ≤ (batch_upsert_counts degradationOracle (List.range 10) 10).1 ∧
    0 ≤ (batch_upsert_counts degradationOracle (List.range 10) 10).2) :=
  ⟨by decide, C4_conservation degradationOracle (List.range 10) 10 (by decide)⟩

/-- C2: modelling the keyed store as a map from conflict key to row, and
assuming the store accepts the writes, `batch_upsert` leaves the store in the
state obtained by upserting the records in order: the state is the same for
every batch size (in particular equal to writing one record at a time,
`bs = 1`), and running `batch_upsert` twice on the same records leaves the
same final state as running it once. -/
theorem C2_idempotent_batching {K R : Type} [DecidableEq K] (key : R → K)
    (o : StoreOracle R) (store : K → Option R) (records : List R) (bs : Nat)
    (hbs : 0 < bs) (hok : ∀ b, o.batchOk b = true) :
    batch_upsert_state key o store records bs = applyUpserts key store records ∧
    batch_upsert_state key o store records bs =
      batch_upsert_state key o store records 1 ∧
    batch_upsert_state key o (batch_upsert_state key o store records bs) records bs =
      batch_upsert_state key o store records bs := by
  have hstate : ∀ (st : K → Option R) (b : Nat), 0 < b →
      batch_upsert_state key o st records b = applyUpserts key st records := by
    intro st b hb
    unfold batch_upsert_state
    rw [appliedWrites_allOk o b hb records hok]
  refine ⟨hstate store bs hbs, ?_, ?_⟩
  · rw [hstate store bs hbs, hstate store 1 (by omega)]
  · rw [hstate store bs hbs, hstate (applyUpserts key store records) bs hbs,
      applyUpserts_idem]

/-- Witness for C2 at a concrete input: three key-value records (two sharing
conflict key 1) upserted with batch size 2 against an empty store. -/
theorem C2_idempotent_batching_witness :
    (0 < 2 ∧ ∀ b, allOkOracle.batchOk b = true) ∧
    (batch_upsert_state Prod.fst allOkOracle (fun _ => none)
        [(1, 10), (2, 20), (1, 30)] 2 =
      applyUpserts Prod.fst (fun _ => none) [(1, 10), (2, 20), (1, 30)] ∧
    batch_upsert_state Prod.fst allOkOracle (fun _ => none)
        [(1, 10), (2, 20), (1, 30)] 2 =
      batch_upsert_state Prod.fst allOkOracle (fun _ => none)
        [(1, 10), (2, 20), (1, 30)] 1 ∧
    batch_upsert_state Prod.fst allOkOracle
        (batch_upsert_state Prod.fst allOkOracle (fun _ => none)
          [(1, 10), (2, 20), (1, 30)] 2)
        [(1, 10), (2, 20), (1, 30)] 2 =
      batch_upsert_state Prod.fst allOkOracle (fun _ => none)
        [(1, 10), (2, 20), (1, 30)] 2) :=
  ⟨⟨by decide, fun _ => rfl⟩,
   C2_idempotent_batching Prod.fst allOkOracle (fun _ => none)
     [(1, 10), (2, 20), (1, 30)] 2 (by decide) (fun _ => rfl)⟩

/-- C10: `SyncResult.success_rate` is total for every `SyncResult`: it returns
100 when `total = 0` without dividing, and `successful / total * 100`
otherwise; the guarded division never hits a zero denominator. -/
theorem C10_success_rate_total (r : SyncResult) :
    success_rate r =
      some (if r.total = 0 then 100 else (r.successful : ℚ) / (r.total : ℚ) * 100) := by
  unfold success_rate divQ
  by_cases h : r.total = 0
  · simp [h]
  · have hq : (r.total : ℚ) ≠ 0 := by
      exact_mod_cast h
    simp [h, hq]

/-- A row of `ygo_card_metadata` as selected by `get_cards_without_images`
(sync_images.py line 24: `select("id, name")`). -/
structure Card where
  id : Nat
  name : String
deriving DecidableEq

/-- The pipeline stages of `process_card` (sync_images.py lines 97-116), in
source order: download, upload to S3, persist the reference (the
`update_database` call). -/
inductive Stage
  | download
  | upload
  | persist
deriving DecidableEq

/-- Outcome oracle for the per-item image pipeline: `download id` is what
`download_image` returns (`none` = request exception, bytes otherwise),
`upload id bytes` is what `upload_to_s3` returns (`none` = ClientError, the
URL otherwise), and `persistOk id` is the Bool `update_database` returns. -/
structure ImageOracle where
  download : Nat → Option (List Nat)
  upload : Nat → List Nat → Option String
  persistOk : Nat → Bool

/-- Python truthiness of `image_data` in `if not image_data:` — falsy when
the download raised (`None`) or yielded the empty byte string. -/
def falsyBytes : Option (List Nat) → Bool
  | none => true
  | some [] => true
  | some (_ :: _) => false

/-- Python truthiness of `s3_url` in `if not s3_url:` — falsy when the upload
raised (`None`) or yielded the empty string. -/
def falsyStr : Option String → Bool
  | none => true
  | some s => s.isEmpty

/-- The `(card_id, success, error_msg)` triple returned by `process_card`. -/
structure CardOutcome where
  cardId : Nat
  success : Bool
  errorMsg : Option String
deriving DecidableEq

/-- `process_card` (sync_images.py lines 97-116), paired with the list of
pipeline stages it invoked, in order.  The failure messages of the source
surround the card name with single quotes; those quote characters are elided
here, keeping the name itself in the message. -/
def process_card (o : ImageOracle) (card : Card) : CardOutcome × List Stage :=
  let image_data := o.download card.id
  if falsyBytes image_data then
    (⟨card.id, false, some ("Failed to download image for " ++ card.name)⟩,
     [Stage.download])
  else
    let s3_url := o.upload card.id (image_data.getD [])
    if falsyStr s3_url then
      (⟨card.id, false, some ("Failed to upload image for " ++ card.name ++ " to S3")⟩,
       [Stage.download, Stage.upload])
    else if o.persistOk card.id then
      (⟨card.id, true, none⟩, [Stage.download, Stage.upload, Stage.persist])
    else
      (⟨card.id, false, some ("Failed to update database for " ++ card.name)⟩,
       [Stage.download, Stage.upload, Stage.persist])

/-- Whether all stages of a card's pipeline succeed. -/
def cardSucceeds (o : ImageOracle) (card : Card) : Bool :=
  (process_card o card).1.success

/-- The `(successful, failed)` counters accumulated by
`process_cards_parallel` (sync_images.py lines 119-152) over the items in
completion order: `successful += 1` when the worker reports success,
`failed += 1` otherwise (also when the future raised; `process_card` itself
is total, so that branch never fires in the embedding). -/
def process_cards_parallel_counts (o : ImageOracle) (completed : List Card) : Int × Int :=
  completed.foldl
    (fun acc card => if cardSucceeds o card then (acc.1 + 1, acc.2) else (acc.1, acc.2 + 1))
    (0, 0)

lemma counts_foldl_closed (o : ImageOracle) (l : List Card) (s f : Int) :
    l.foldl
        (fun acc card =>
          if cardSucceeds o card then (acc.1 + 1, acc.2) else (acc.1, acc.2 + 1))
        (s, f) =
      (s + ((l.filter (cardSucceeds o)).length : Int),
       f + ((l.filter (fun c => ! cardSucceeds o c)).length : Int)) := by
  induction l generalizing s f with
  | nil => simp
  | cons c cs ih =>
      cases hc : cardSucceeds o c with
      | true =>
          simp only [List.foldl_cons, hc, if_true]
          rw [ih]
          simp [List.filter_cons, hc]
          push_cast
          ring
      | false =>
          simp only [List.foldl_cons, hc, Bool.false_eq_true, if_false]
          rw [ih]
          simp [List.filter_cons, hc]
          push_cast
          ring

lemma process_cards_parallel_counts_eq (o : ImageOracle) (l : List Card) :
    process_cards_parallel_counts o l =
      (((l.filter (cardSucceeds o)).length : Int),
       ((l.filter (fun c => ! cardSucceeds o c)).length : Int)) := by
  unfold process_cards_parallel_counts
  rw [counts_foldl_closed]
  simp

/-- C3: stage failures are isolated per item: the counters of
`process_cards_parallel` are independent of completion order and count
exactly the items whose stages all succeed as successful and the rest as
failed; an item that fails a stage gets a failure outcome whose reason names
that item, and no later stage of that item is invoked. -/
theorem C3_failure_isolation (o : ImageOracle) (cards completed : List Card)
    (hperm : completed.Perm cards) :
    process_cards_parallel_counts o completed =
      (((cards.filter (cardSucceeds o)).length : Int),
       ((cards.filter (fun c => ! cardSucceeds o c)).length : Int)) ∧
    (∀ c : Card, cardSucceeds o c = true ↔
      (falsyBytes (o.download c.id) = false ∧
       falsyStr (o.upload c.id ((o.download c.id).getD [])) = false ∧
       o.persistOk c.id = true)) ∧
    (∀ c : Card, falsyBytes (o.download c.id) = true →
      (process_card o c).1 =
        ⟨c.id, false, some ("Failed to download image for " ++ c.name)⟩ ∧
      (process_card o c).2 = [Stage.download]) ∧
    (∀ c : Card, falsyBytes (o.download c.id) = false →
      falsyStr (o.upload c.id ((o.download c.id).getD [])) = true →
      (process_card o c).1 =
        ⟨c.id, false, some ("Failed to upload image for " ++ c.name ++ " to S3")⟩ ∧
      (process_card o c).2 = [Stage.download, Stage.upload]) ∧
    (∀ c : Card, falsyBytes (o.download c.id) = false →
      falsyStr (o.upload c.id ((o.download c.id).getD [])) = false →
      o.persistOk c.id = false →
      (process_card o c).1 =
        ⟨c.id, false, some ("Failed to update database for " ++ c.name)⟩ ∧
      (process_card o c).2 = [Stage.download, Stage.upload, Stage.persist]) := by
  refine ⟨?_, ?_, ?_, ?_, ?_⟩
  · rw [process_cards_parallel_counts_eq]
    have h1 := (hperm.filter (cardSucceeds o)).length_eq
    have h2 := (hperm.filter (fun c => ! cardSucceeds o c)).length_eq
    rw [h1, h2]
  · intro c
    unfold cardSucceeds process_card
    cases hd : falsyBytes (o.download c.id) with
    | true => simp [hd]
    | false =>
        cases hu : falsyStr (o.upload c.id ((o.download c.id).getD [])) with
        | true => simp [hd, hu]
        | false =>
            cases hp : o.persistOk c.id with
            | true => simp [hd, hu, hp]
            | false => simp [hd, hu, hp]
  · intro c hd
    unfold process_card
    simp [hd]
  · intro c hd hu
    unfold process_card
    simp [hd, hu]
  · intro c hd hu hp
    unfold process_card
    simp [hd, hu, hp]

/-- Oracle for the failure-isolation example: card 42's download raises a
(simulated) network error, everything else succeeds. -/
def item42Oracle : ImageOracle :=
  { download := fun id => if id = 42 then none else some [1]
    upload := fun _ _ => some "u"
    persistOk := fun _ => true }

/-- The 100 items of the failure-isolation example. -/
def hundredCards : List Card :=
  (List.range 100).map (fun i => ⟨i, "card" ++ toString i⟩)

set_option maxRecDepth 4000 in
/-- Witness for C3 at a concrete input: 100 items where only item 42's
download fails are reported as 99 successful / 1 failed, whatever the
completion order (here the submission order itself). -/
theorem C3_failure_isolation_witness :
    hundredCards.Perm hundredCards ∧
    process_cards_parallel_counts item42Oracle hundredCards =
      (((hundredCards.filter (cardSucceeds item42Oracle)).length : Int),
       ((hundredCards.filter (fun c => ! cardSucceeds item42Oracle c)).length : Int)) ∧
    process_cards_parallel_counts item42Oracle hundredCards = (99, 1) ∧
    (process_card item42Oracle ⟨42, "card42"⟩).1.errorMsg =
      some "Failed to download image for card42" :=
  ⟨List.Perm.refl _,
   (C3_failure_isolation item42Oracle hundredCards hundredCards (List.Perm.refl _)).1,
   by decide, by decide⟩

/-- C8: a download that completes but yields the empty byte string is treated
as a download failure: `process_card` returns a failure outcome with the
download-failure reason, and neither the upload stage nor the persist stage
is invoked. -/
theorem C8_empty_download (o : ImageOracle) (c : Card)
    (hempty : o.download c.id = some []) :
    (process_card o c).1.success = false ∧
    (process_card o c).1.errorMsg =
      some ("Failed to download image for " ++ c.name) ∧
    (process_card o c).2 = [Stage.download] ∧
    Stage.upload ∉ (process_card o c).2 ∧
    Stage.persist ∉ (process_card o c).2 := by
  have hfalsy : falsyBytes (o.download c.id) = true := by
    rw [hempty]
    rfl
  unfold process_card
  simp [hfalsy]

/-- Oracle whose downloads always return an empty byte string. -/
def emptyBytesOracle : ImageOracle :=
  { download := fun _ => some []
    upload := fun _ _ => some "u"
    persistOk := fun _ => true }

/-- Witness for C8 at a concrete input. -/
theorem C8_empty_download_witness :
    emptyBytesOracle.download 7 = some [] ∧
    ((process_card emptyBytesOracle ⟨7, "x"⟩).1.success = false ∧
     (process_card emptyBytesOracle ⟨7, "x"⟩).1.errorMsg =
       some ("Failed to download image for " ++ "x") ∧
     (process_card emptyBytesOracle ⟨7, "x"⟩).2 = [Stage.download] ∧
     Stage.upload ∉ (process_card emptyBytesOracle ⟨7, "x"⟩).2 ∧
     Stage.persist ∉ (process_card emptyBytesOracle ⟨7, "x"⟩).2) :=
  ⟨rfl, C8_empty_download emptyBytesOracle ⟨7, "x"⟩ rfl⟩

/-- The running accumulator of `sync_translations` (sync_cards.py lines
152-154): `total_successful`, `total_failed`, `total_records`. -/
structure TransAcc where
  successful : Int
  failed : Int
  total : Int
deriving DecidableEq

/-- One iteration of the per-language loop of `sync_translations`
(sync_cards.py lines 156-179).  `fetchValidated lang` models the result of
`fetch_cards_from_api` followed by `validate_and_transform_translations` for
that language, with `none` standing for the `except Exception` path (the
fetch raised): that path does `total_failed += 1` and nothing else; an empty
validated list hits the `continue`; otherwise `total_records` grows by the
record count and `batch_upsert` results are accumulated. -/
def transStep {R : Type} (fetchValidated : String → Option (List R))
    (store : StoreOracle R) (bs : Nat) (acc : TransAcc) (lang : String) : TransAcc :=
  match fetchValidated lang with
  | none => { acc with failed := acc.failed + 1 }
  | some [] => acc
  | some (t :: ts) =>
      let sf := batch_upsert_counts store (t :: ts) bs
      { successful := acc.successful + sf.1
        failed := acc.failed + sf.2
        total := acc.total + (((t :: ts).length : Nat) : Int) }

/-- `sync_translations` (sync_cards.py lines 150-185): fold the per-language
step over the configured languages and package the totals as a
`SyncResult` (whose `skipped` defaults to 0). -/
def sync_translations {R : Type} (fetchValidated : String → Option (List R))
    (store : StoreOracle R) (bs : Nat) (languages : List String) : SyncResult :=
  let a := languages.foldl (transStep fetchValidated store bs) ⟨0, 0, 0⟩
  ⟨a.total, a.successful, a.failed, 0⟩

/-- Number of languages whose fetch/validation raised. -/
def raisedCount {R : Type} (fetchValidated : String → Option (List R))
    (languages : List String) : Int :=
  ((languages.filter (fun l => (fetchValidated l).isNone)).length : Int)

lemma transStep_foldl {R : Type} (fetchValidated : String → Option (List R))
    (store : StoreOracle R) (bs : Nat) (hbs : 0 < bs) (languages : List String) :
    ∀ acc : TransAcc,
      (languages.foldl (transStep fetchValidated store bs) acc).successful +
          (languages.foldl (transStep fetchValidated store bs) acc).failed -
          (languages.foldl (transStep fetchValidated store bs) acc).total =
        acc.successful + acc.failed - acc.total +
          raisedCount fetchValidated languages := by
  induction languages with
  | nil => intro acc; simp [raisedCount]
  | cons lang langs ih =>
      intro acc
      simp only [List.foldl_cons]
      rw [ih]
      unfold transStep
      cases hf : fetchValidated lang with
      | none =>
          simp only [raisedCount, List.filter_cons, hf, Option.isNone_none, if_true,
            List.length_cons]
          push_cast
          ring
      | some ts =>
          cases ts with
          | nil =>
              simp only [raisedCount, List.filter_cons, hf, Option.isNone_some]
              simp
          | cons t ts =>
              have hsum := (C4_conservation store (t :: ts) bs hbs).1
              simp only [raisedCount, List.filter_cons, hf, Option.isNone_some,
                Bool.false_eq_true, if_false]
              have : (batch_upsert_counts store (t :: ts) bs).1 +
                  (batch_upsert_counts store (t :: ts) bs).2 =
                  (((t :: ts).length : Nat) : Int) := hsum
              omega

/-- Trivial store oracle over `Unit` records. -/
def unitStoreOracle : StoreOracle Unit :=
  { batchOk := fun _ => true, recOk := fun _ => true }

/-- C5 counterexample: when fetching the single configured language raises
before any record is counted toward `total`, `sync_translations` returns
`total = 0, successful = 0, failed = 1`, so `successful + failed + skipped`
exceeds `total` and the claimed invariant fails on this run. -/
theorem C5_counterexample :
    sync_translations (fun _ => (none : Option (List Unit))) unitStoreOracle 500 ["pt"] =
      ⟨0, 0, 1, 0⟩ ∧
    ¬ ((sync_translations (fun _ => (none : Option (List Unit))) unitStoreOracle 500
          ["pt"]).successful +
        (sync_translations (fun _ => (none : Option (List Unit))) unitStoreOracle 500
          ["pt"]).failed +
        (sync_translations (fun _ => (none : Option (List Unit))) unitStoreOracle 500
          ["pt"]).skipped ≤
      (sync_translations (fun _ => (none : Option (List Unit))) unitStoreOracle 500
          ["pt"]).total) := by
  constructor
  · rfl
  · decide

/-- C5 amended: the `SyncResult` of `sync_translations` satisfies
`successful + failed + skipped = total + L`, where `L` is the number of
languages whose fetch/validation raised before their records were counted
toward `total` (each such language adds 1 to `failed` and nothing to
`total`); in particular `successful + failed + skipped = total` whenever no
language-level exception occurs, and the claimed bound
`successful + failed + skipped ≤ total` holds exactly in that case. -/
theorem C5_translation_conservation {R : Type}
    (fetchValidated : String → Option (List R)) (store : StoreOracle R)
    (bs : Nat) (hbs : 0 < bs) (languages : List String) :
    (sync_translations fetchValidated store bs languages).successful +
        (sync_translations fetchValidated store bs languages).failed +
        (sync_translations fetchValidated store bs languages).skipped =
      (sync_translations fetchValidated store bs languages).total +
        raisedCount fetchValidated languages ∧
    (raisedCount fetchValidated languages = 0 →
      (sync_translations fetchValidated store bs languages).successful +
          (sync_translations fetchValidated store bs languages).failed +
          (sync_translations fetchValidated store bs languages).skipped =
        (sync_translations fetchValidated store bs languages).total) := by
  have h := transStep_foldl fetchValidated store bs hbs languages ⟨0, 0, 0⟩
  simp only [show (⟨0, 0, 0⟩ : TransAcc).successful = 0 from rfl,
    show (⟨0, 0, 0⟩ : TransAcc).failed = 0 from rfl,
    show (⟨0, 0, 0⟩ : TransAcc).total = 0 from rfl] at h
  constructor
  · unfold sync_translations
    dsimp only
    omega
  · intro h0
    unfold sync_translations
    dsimp only
    omega

/-- Per-language outcomes for the C5 witness: language pt yields two records,
language fr raises. -/
def witnessFetch : String → Option (List Nat) :=
  fun l => if l = "pt" then some [1, 2] else none

/-- All-success store oracle over `Nat` records. -/
def natStoreOracle : StoreOracle Nat :=
  { batchOk := fun _ => true, recOk := fun _ => true }

/-- Witness for C5 amended at a concrete input: with languages pt (two
records, upserted) and fr (fetch raises), the result is
`total = 2, successful = 2, failed = 1` and the equation holds with
`L = 1`. -/
theorem C5_translation_conservation_witness :
    0 < 500 ∧
    ((sync_translations witnessFetch natStoreOracle 500 ["pt", "fr"]).successful +
        (sync_translations witnessFetch natStoreOracle 500 ["pt", "fr"]).failed +
        (sync_translations witnessFetch natStoreOracle 500 ["pt", "fr"]).skipped =
      (sync_translations witnessFetch natStoreOracle 500 ["pt", "fr"]).total +
        raisedCount witnessFetch ["pt", "fr"] ∧
    (raisedCount witnessFetch ["pt", "fr"] = 0 →
      (sync_translations witnessFetch natStoreOracle 500 ["pt", "fr"]).successful +
          (sync_translations witnessFetch natStoreOracle 500 ["pt", "fr"]).failed +
          (sync_translations witnessFetch natStoreOracle 500 ["pt", "fr"]).skipped =
        (sync_translations witnessFetch natStoreOracle 500 ["pt", "fr"]).total)) ∧
    sync_translations witnessFetch natStoreOracle 500 ["pt", "fr"] = ⟨2, 2, 1, 0⟩ :=
  ⟨by decide,
   C5_translation_conservation witnessFetch natStoreOracle 500 (by decide) ["pt", "fr"],
   by decide⟩

/-- One page of the paginated select of `get_cards_without_images`
(sync_images.py lines 24-31): `range(offset, offset + page_size - 1)` over
the stable set of rows matching the filter (`image_url_s3 is null`, or all
rows when `force` is set; the `force` flag only chooses which set `matching`
is, so the loop is modelled over `matching` directly).  The identical loop of
`get_cards_without_cropped_images` (sync_cropped_images.py lines 19-53) is
embedded by the same definitions. -/
def pageAt (matching : List Card) (pageSize offset : Nat) : List Card :=
  (matching.drop offset).take pageSize

/-- The `while True` pagination loop of `get_cards_without_images`
(sync_images.py lines 23-46), fuel-indexed: stop on an empty page; append the
page; stop on a short page; advance the offset; then — only after a full
page — truncate to `limit` and stop once `limit` is reached (`limit = 0`
models Python `limit=None`, falsy in `if limit and ...`). -/
def fetchPagesAux (matching : List Card) (limit pageSize : Nat) :
    Nat → Nat → List Card → List Card
  | 0, _, acc => acc
  | fuel + 1, offset, acc =>
      let cards := pageAt matching pageSize offset
      if cards.isEmpty then acc
      else if cards.length < pageSize then acc ++ cards
      else if limit ≠ 0 ∧ limit ≤ (acc ++ cards).length then (acc ++ cards).take limit
      else fetchPagesAux matching limit pageSize fuel (offset + pageSize) (acc ++ cards)

/-- `get_cards_without_images` (sync_images.py lines 15-49): page size 1000,
starting at offset 0 with an empty accumulator.  `matching.length + 1` fuel
is enough because every recursive step consumes a full page of 1000 rows. -/
def get_cards_without_images (matching : List Card) (limit : Nat) : List Card :=
  fetchPagesAux matching limit 1000 (matching.length + 1) 0 []

/-- Seven matching rows: a single short page. -/
def sevenCards : List Card :=
  (List.range 7).map (fun i => ⟨i, ""⟩)

/-- C6 counterexample: with 7 matching rows and `limit = 5`, the single page
of 7 rows is short (< 1000), so the loop breaks before the limit check ever
runs and all 7 cards are returned — more than the hard limit of 5. -/
theorem C6_counterexample :
    (get_cards_without_images sevenCards 5).length = 7 ∧
    ¬ ((get_cards_without_images sevenCards 5).length ≤ 5) := by
  constructor
  · rfl
  · decide

lemma fetchPagesAux_length_bound (matching : List Card) (limit : Nat)
    (hlimit : 0 < limit) :
    ∀ (fuel offset : Nat) (acc : List Card), acc.length < limit →
      (fetchPagesAux matching limit 1000 fuel offset acc).length ≤ limit + 999 := by
  intro fuel
  induction fuel with
  | zero =>
      intro offset acc hacc
      simp only [fetchPagesAux]
      omega
  | succ n ih =>
      intro offset acc hacc
      simp only [fetchPagesAux]
      by_cases hempty : (pageAt matching 1000 offset).isEmpty
      · simp only [hempty, if_true]
        omega
      · simp only [hempty, Bool.false_eq_true, if_false]
        have hpage : (pageAt matching 1000 offset).length ≤ 1000 := by
          unfold pageAt
          simp [List.length_take]
        by_cases hshort : (pageAt matching 1000 offset).length < 1000
        · rw [if_pos hshort]
          simp only [List.length_append]
          omega
        · rw [if_neg hshort]
          by_cases hcap : limit ≠ 0 ∧ limit ≤ (acc ++ pageAt matching 1000 offset).length
          · rw [if_pos hcap]
            simp only [List.length_take]
            omega
          · rw [if_neg hcap]
            apply ih
            have hne : limit ≠ 0 := by omega
            have : ¬ limit ≤ (acc ++ pageAt matching 1000 offset).length := by
              intro hle
              exact hcap ⟨hne, hle⟩
            simp only [List.length_append] at this ⊢
            omega

/-- C6 amended: for every matching set and every positive `limit`,
`get_cards_without_images` returns at most `limit + 999` cards (page size
1000).  The claimed bound of `limit` itself does not hold: the limit check
runs only after a full page, so a final short page can push the result past
`limit` by up to `page_size - 1` rows (see the counterexample). -/
theorem C6_limit_bound (matching : List Card) (limit : Nat) (hlimit : 0 < limit) :
    (get_cards_without_images matching limit).length ≤ limit + 999 := by
  unfold get_cards_without_images
  exact fetchPagesAux_length_bound matching limit hlimit (matching.length + 1) 0 []
    (by simpa using hlimit)

/-- Witness for C6 amended at a concrete input: the seven-card example with
`limit = 5` stays within `5 + 999`. -/
theorem C6_limit_bound_witness :
    0 < 5 ∧ (get_cards_without_images sevenCards 5).length ≤ 5 + 999 :=
  ⟨by decide, C6_limit_bound sevenCards 5 (by decide)⟩

/-- The store-writing phases `run_sync_cards` may perform after validation
(sync_cards.py lines 215-231): the metadata `batch_upsert` and the
`sync_translations` call. -/
inductive SyncAction
  | upsertMetadata
  | translationSync
deriving DecidableEq

/-- `run_sync_cards` (sync_cards.py lines 188-250) after fetch + validation:
`cards` is the validated card list; the triple returned is the metadata
`SyncResult`, the optional translation `SyncResult`, and the list of
store-writing phases performed.  When validation produced no cards it returns
`SyncResult(total=0, successful=0, failed=0)` and `None` immediately (lines
211-213); otherwise it upserts, and unless `skip_translations` is set it also
runs `sync_translations` (lines 228-231). -/
def run_sync_cards {R S : Type} (cards : List R) (store : StoreOracle R)
    (transFetch : String → Option (List S)) (transStore : StoreOracle S)
    (bs : Nat) (languages : List String) (skip_translations : Bool) :
    SyncResult × Option SyncResult × List SyncAction :=
  if cards.isEmpty then (⟨0, 0, 0, 0⟩, none, [])
  else
    let sf := batch_upsert_counts store cards bs
    let metadata : SyncResult := ⟨(cards.length : Int), sf.1, sf.2, 0⟩
    if skip_translations then (metadata, none, [SyncAction.upsertMetadata])
    else
      (metadata, some (sync_translations transFetch transStore bs languages),
       [SyncAction.upsertMetadata, SyncAction.translationSync])

/-- C9: if validation produced an empty card list, `run_sync_cards` returns
the zero `SyncResult` paired with `none` and performs neither the metadata
upsert nor the translation sync, even when `skip_translations` is false. -/
theorem C9_empty_validation {R S : Type} (store : StoreOracle R)
    (transFetch : String → Option (List S)) (transStore : StoreOracle S)
    (bs : Nat) (languages : List String) (skip_translations : Bool) :
    run_sync_cards ([] : List R) store transFetch transStore bs languages
        skip_translations =
      (⟨0, 0, 0, 0⟩, none, []) := by
  simp [run_sync_cards]

/-- The `banlist_info` sub-dict of a raw banlist card: each field is `none`
when the key is absent from the dict. -/
structure BanInfo where
  ban_tcg : Option String
  ban_ocg : Option String
  ban_goat : Option String
deriving DecidableEq

/-- A raw card as consumed by `fetch_banlist_from_api`: its id and its
optional `banlist_info` dict (`none` = key absent or null). -/
structure RawBanCard where
  id : Nat
  banlist_info : Option BanInfo
deriving DecidableEq, Inhabited

/-- `card.get("banlist_info", {}) or {}`: a missing or null dict
becomes the empty dict. -/
def getInfo : Option BanInfo → BanInfo
  | none => ⟨none, none, none⟩
  | some b => b

/-- The merge applied to a card id present in both regional lists
(sync_banlist.py lines 60-69): copy the existing (TCG) `banlist_info`, then
overwrite only its `ban_ocg` key when the OCG card's `banlist_info` carries
one; all other keys keep the TCG values.  The merged dict is stored back on
the existing (TCG) card. -/
def mergeShared (existing ocgCard : RawBanCard) : RawBanCard :=
  let e := getInfo existing.banlist_info
  let o := getInfo ocgCard.banlist_info
  let merged :=
    match o.ban_ocg with
    | some v => { e with ban_ocg := some v }
    | none => e
  { existing with banlist_info := some merged }

/-- Python dict keyed by card id, with insertion order: `keys` is the key
sequence in first-insertion order, `get` the mapping. -/
structure IdDict where
  keys : List Nat
  get : Nat → Option RawBanCard

/-- The empty dict `cards_by_id = {}`. -/
def emptyDict : IdDict :=
  ⟨[], fun _ => none⟩

/-- `cards_by_id[i] = c`: overwrite in place when the key exists, append the
key otherwise. -/
def setItem (d : IdDict) (i : Nat) (c : RawBanCard) : IdDict :=
  { keys := if (d.get i).isSome then d.keys else d.keys ++ [i]
    get := fun j => if j = i then some c else d.get j }

/-- `list(cards_by_id.values())`: the rows in key-insertion order. -/
def dictValues (d : IdDict) : List RawBanCard :=
  d.keys.filterMap d.get

/-- The first loop of `fetch_banlist_from_api` (sync_banlist.py lines 44-46):
`cards_by_id[card["id"]] = card` over the TCG list. -/
def tcgPhase (tcg : List RawBanCard) : IdDict :=
  tcg.foldl (fun d c => setItem d c.id c) emptyDict

/-- One step of the second loop (sync_banlist.py lines 58-72): a shared id is
merged via `mergeShared`; an OCG-only id is inserted unchanged. -/
def ocgStep (d : IdDict) (c : RawBanCard) : IdDict :=
  match d.get c.id with
  | some existing => setItem d c.id (mergeShared existing c)
  | none => setItem d c.id c

/-- `fetch_banlist_from_api` (sync_banlist.py lines 31-77) restricted to its
merging logic, parameterised by the two decoded API payloads. -/
def fetch_banlist_from_api (tcg ocg : List RawBanCard) : List RawBanCard :=
  dictValues (ocg.foldl ocgStep (tcgPhase tcg))

/-- TCG response of the merge counterexample: card 1 is Limited on every
list. -/
def tcgConflict : List RawBanCard :=
  [⟨1, some ⟨some "Limited", some "Limited", some "Limited"⟩⟩]

/-- OCG response of the merge counterexample: card 1 is Forbidden on every
list. -/
def ocgConflict : List RawBanCard :=
  [⟨1, some ⟨some "Forbidden", some "Forbidden", some "Forbidden"⟩⟩]

/-- C7 counterexample: for a card id present in both lists, only the
`ban_ocg` field takes the OCG value; the conflicting `ban_tcg` and `ban_goat`
fields keep the TCG values, contradicting last-source-wins per overlapping
field (the OCG source said `ban_goat = Forbidden`, the merged record says
`Limited`). -/
theorem C7_counterexample :
    fetch_banlist_from_api tcgConflict ocgConflict =
      [⟨1, some ⟨some "Limited", some "Forbidden", some "Limited"⟩⟩] ∧
    (getInfo ((fetch_banlist_from_api tcgConflict ocgConflict).headI.banlist_info)).ban_goat =
      some "Limited" ∧
    (getInfo ((ocgConflict.headI).banlist_info)).ban_goat = some "Forbidden" ∧
    ¬ ((getInfo ((fetch_banlist_from_api tcgConflict ocgConflict).headI.banlist_info)).ban_goat =
        (getInfo ((ocgConflict.headI).banlist_info)).ban_goat) := by
  refine ⟨rfl, rfl, rfl, ?_⟩
  decide

lemma setItem_get (d : IdDict) (i : Nat) (c : RawBanCard) (j : Nat) :
    (setItem d i c).get j = if j = i then some c else d.get j :=
  rfl

/-- Well-formedness of the dict encoding: keys are unique, a key is recorded
exactly when it is mapped, and every stored card sits under its own id. -/
def DictWF (d : IdDict) : Prop :=
  d.keys.Nodup ∧ (∀ i, i ∈ d.keys ↔ (d.get i).isSome) ∧
    (∀ i c, d.get i = some c → c.id = i)

lemma emptyDict_wf : DictWF emptyDict := by
  refine ⟨List.nodup_nil, ?_, ?_⟩
  · intro i
    simp [emptyDict]
  · intro i c h
    simp [emptyDict] at h

lemma setItem_wf (d : IdDict) (i : Nat) (c : RawBanCard) (hwf : DictWF d)
    (hid : c.id = i) : DictWF (setItem d i c) := by
  obtain ⟨hnodup, hmem, hids⟩ := hwf
  by_cases hpres : (d.get i).isSome
  · refine ⟨?_, ?_, ?_⟩
    · simp only [setItem, hpres, if_true]
      exact hnodup
    · intro j
      simp only [setItem, hpres, if_true]
      by_cases hj : j = i
      · subst hj
        simp [hmem j |>.symm, hpres, hmem]
      · simp only [hj, if_false]
        exact hmem j
    · intro j c' h
      simp only [setItem] at h
      by_cases hj : j = i
      · subst hj
        simp only [if_true] at h
        cases h
        exact hid
      · simp only [hj, if_false] at h
        exact hids j c' h
  · have hni : i ∉ d.keys := fun h => hpres ((hmem i).mp h)
    rw [Bool.not_eq_true] at hpres
    refine ⟨?_, ?_, ?_⟩
    · simp only [setItem, hpres, Bool.false_eq_true, if_false]
      refine List.Nodup.append hnodup (List.nodup_singleton i) ?_
      intro a ha hai
      rw [List.mem_singleton.mp hai] at ha
      exact hni ha
    · intro j
      simp only [setItem, hpres, Bool.false_eq_true, if_false, List.mem_append,
        List.mem_singleton]
      by_cases hj : j = i
      · subst hj
        simp
      · simp only [hj, if_false, or_false]
        exact hmem j
    · intro j c' h
      simp only [setItem] at h
      by_cases hj : j = i
      · subst hj
        simp only [if_true] at h
        cases h
        exact hid
      · simp only [hj, if_false] at h
        exact hids j c' h

lemma lastWrite_cons {K R : Type} [DecidableEq K] (key : R → K) (k : K)
    (x : R) (xs : List R) :
    lastWrite key k (x :: xs) =
      match lastWrite key k xs with
      | some w => some w
      | none => if key x = k then some x else none := by
  unfold lastWrite
  simp only [List.foldl_cons]
  exact lastWrite_foldl_init key k xs (if key x = k then some x else none)

lemma lastWrite_eq_none {K R : Type} [DecidableEq K] (key : R → K) (k : K)
    (l : List R) (h : k ∉ l.map key) : lastWrite key k l = none := by
  induction l with
  | nil => rfl
  | cons x xs ih =>
      rw [lastWrite_cons]
      simp only [List.map_cons, List.mem_cons] at h
      push_neg at h
      rw [ih h.2]
      have : key x ≠ k := fun he => h.1 he.symm
      simp [this]

lemma lastWrite_some_mem {K R : Type} [DecidableEq K] (key : R → K) (k : K)
    (l : List R) (w : R) (h : lastWrite key k l = some w) : w ∈ l ∧ key w = k := by
  induction l with
  | nil => simp [lastWrite] at h
  | cons x xs ih =>
      rw [lastWrite_cons] at h
      cases hxs : lastWrite key k xs with
      | some v =>
          rw [hxs] at h
          cases h
          obtain ⟨hmem, hkey⟩ := ih hxs
          exact ⟨List.mem_cons_of_mem x hmem, hkey⟩
      | none =>
          rw [hxs] at h
          by_cases hx : key x = k
          · simp only [hx, if_true, Option.some.injEq] at h
            subst h
            exact ⟨List.mem_cons_self x xs, hx⟩
          · simp [hx] at h

lemma lastWrite_mem_nodup {K R : Type} [DecidableEq K] (key : R → K)
    (l : List R) (hnodup : (l.map key).Nodup) (t : R) (ht : t ∈ l) :
    lastWrite key (key t) l = some t := by
  induction l with
  | nil => simp at ht
  | cons x xs ih =>
      simp only [List.map_cons, List.nodup_cons] at hnodup
      rw [lastWrite_cons]
      rcases List.mem_cons.mp ht with hx | hxs
      · subst hx
        have : key t ∉ xs.map key := hnodup.1
        rw [lastWrite_eq_none key (key t) xs this]
        simp
      · rw [ih hnodup.2 hxs]

lemma foldl_setItem_get (l : List RawBanCard) :
    ∀ d : IdDict,
      (l.foldl (fun d c => setItem d c.id c) d).get =
        applyUpserts (fun c => c.id) d.get l := by
  induction l with
  | nil => intro d; rfl
  | cons c cs ih =>
      intro d
      simp only [List.foldl_cons]
      rw [ih]
      rfl

lemma tcgPhase_get (tcg : List RawBanCard) (i : Nat) :
    (tcgPhase tcg).get i =
      match lastWrite (fun c => c.id) i tcg with
      | some t => some t
      | none => none := by
  unfold tcgPhase
  rw [foldl_setItem_get]
  rw [applyUpserts_apply]
  cases lastWrite (fun c => c.id) i tcg with
  | some t => rfl
  | none => rfl

lemma ocgStep_get (d : IdDict) (c : RawBanCard) (i : Nat) :
    (ocgStep d c).get i =
      if i = c.id then
        match d.get c.id with
        | some e => some (mergeShared e c)
        | none => some c
      else d.get i := by
  unfold ocgStep
  cases hd : d.get c.id with
  | some e => rw [setItem_get]
  | none => rw [setItem_get]

lemma mergeShared_id (e o : RawBanCard) : (mergeShared e o).id = e.id :=
  rfl

lemma tcgPhase_wf (tcg : List RawBanCard) : DictWF (tcgPhase tcg) := by
  unfold tcgPhase
  generalize hd : emptyDict = d
  have hwf : DictWF d := hd ▸ emptyDict_wf
  clear hd
  induction tcg generalizing d with
  | nil => exact hwf
  | cons c cs ih =>
      simp only [List.foldl_cons]
      exact ih (setItem d c.id c) (setItem_wf d c.id c hwf rfl)

lemma ocgStep_wf (d : IdDict) (c : RawBanCard) (hwf : DictWF d) :
    DictWF (ocgStep d c) := by
  unfold ocgStep
  cases hd : d.get c.id with
  | some e =>
      have hid : e.id = c.id := hwf.2.2 c.id e hd
      exact setItem_wf d c.id (mergeShared e c) hwf (by rw [mergeShared_id, hid])
  | none => exact setItem_wf d c.id c hwf rfl

lemma ocgFold_wf (ocg : List RawBanCard) :
    ∀ d : IdDict, DictWF d → DictWF (ocg.foldl ocgStep d) := by
  induction ocg with
  | nil => intro d hd; exact hd
  | cons c cs ih =>
      intro d hd
      simp only [List.foldl_cons]
      exact ih (ocgStep d c) (ocgStep_wf d c hd)

lemma ocgFold_get (ocg : List RawBanCard)
    (hocg : (ocg.map (fun c => c.id)).Nodup) :
    ∀ (d : IdDict) (i : Nat),
      (ocg.foldl ocgStep d).get i =
        match lastWrite (fun c => c.id) i ocg with
        | some o =>
            match d.get i with
            | some e => some (mergeShared e o)
            | none => some o
        | none => d.get i := by
  induction ocg with
  | nil =>
      intro d i
      rfl
  | cons c cs ih =>
      intro d i
      simp only [List.map_cons, List.nodup_cons] at hocg
      simp only [List.foldl_cons]
      rw [ih hocg.2 (ocgStep d c) i, lastWrite_cons]
      cases hcs : lastWrite (fun c => c.id) i cs with
      | some o =>
          obtain ⟨hmem, hkey⟩ := lastWrite_some_mem (fun c => c.id) i cs o hcs
          have hne : i ≠ c.id := by
            intro he
            apply hocg.1
            rw [he] at hkey
            exact hkey ▸ List.mem_map_of_mem (fun c => c.id) hmem
          rw [ocgStep_get, if_neg hne]
      | none =>
          rw [ocgStep_get]
          by_cases hi : i = c.id
          · subst hi
            simp
          · have hc : ¬ ((fun x : RawBanCard => x.id) c = i) := fun he => hi he.symm
            simp [hi, hc]

lemma mem_dictValues (d : IdDict) (hwf : DictWF d) (x : RawBanCard) :
    x ∈ dictValues d ↔ d.get x.id = some x := by
  unfold dictValues
  rw [List.mem_filterMap]
  constructor
  · rintro ⟨i, hmem, hget⟩
    have : x.id = i := hwf.2.2 i x hget
    rw [this]
    exact hget
  · intro hget
    refine ⟨x.id, ?_, hget⟩
    exact (hwf.2.1 x.id).mpr (by simp [hget])

lemma filterMap_map_id (keys : List Nat) (g : Nat → Option RawBanCard)
    (hsome : ∀ i ∈ keys, (g i).isSome)
    (hids : ∀ i c, g i = some c → c.id = i) :
    (keys.filterMap g).map (fun c => c.id) = keys := by
  induction keys with
  | nil => rfl
  | cons k ks ih =>
      have hk : (g k).isSome := hsome k (List.mem_cons_self k ks)
      obtain ⟨c, hc⟩ := Option.isSome_iff_exists.mp hk
      simp only [List.filterMap_cons, hc, List.map_cons]
      rw [ih (fun i hi => hsome i (List.mem_cons_of_mem k hi))]
      rw [hids k c hc]

lemma dictValues_map_id (d : IdDict) (hwf : DictWF d) :
    (dictValues d).map (fun c => c.id) = d.keys := by
  unfold dictValues
  exact filterMap_map_id d.keys d.get (fun i hi => (hwf.2.1 i).mp hi) hwf.2.2

/-- C7 amended: for id-duplicate-free TCG and OCG responses,
`fetch_banlist_from_api` returns exactly one record per card id appearing in
either list, and a card in only one regional list appears unchanged; but for
a shared id the only `banlist_info` field taken from the second (OCG) source
is `ban_ocg` (and only when the OCG record carries one) — `ban_tcg` and
`ban_goat` always keep the first (TCG) source's values, so last-source-wins
holds per-id for `ban_ocg` only, not per overlapping field. -/
theorem C7_banlist_merge (tcg ocg : List RawBanCard)
    (htcg : (tcg.map (fun c => c.id)).Nodup)
    (hocg : (ocg.map (fun c => c.id)).Nodup) :
    ((fetch_banlist_from_api tcg ocg).map (fun c => c.id)).Nodup ∧
    (∀ i : Nat,
      i ∈ (fetch_banlist_from_api tcg ocg).map (fun c => c.id) ↔
        (i ∈ tcg.map (fun c => c.id) ∨ i ∈ ocg.map (fun c => c.id))) ∧
    (∀ t ∈ tcg, t.id ∉ ocg.map (fun c => c.id) →
      t ∈ fetch_banlist_from_api tcg ocg) ∧
    (∀ o ∈ ocg, o.id ∉ tcg.map (fun c => c.id) →
      o ∈ fetch_banlist_from_api tcg ocg) ∧
    (∀ t ∈ tcg, ∀ o ∈ ocg, t.id = o.id →
      mergeShared t o ∈ fetch_banlist_from_api tcg ocg) ∧
    (∀ e o : RawBanCard,
      (mergeShared e o).id = e.id ∧
      (getInfo (mergeShared e o).banlist_info).ban_tcg =
        (getInfo e.banlist_info).ban_tcg ∧
      (getInfo (mergeShared e o).banlist_info).ban_goat =
        (getInfo e.banlist_info).ban_goat ∧
      (getInfo (mergeShared e o).banlist_info).ban_ocg =
        (if (getInfo o.banlist_info).ban_ocg.isSome then
          (getInfo o.banlist_info).ban_ocg
         else (getInfo e.banlist_info).ban_ocg)) := by
  have hwfT : DictWF (tcgPhase tcg) := tcgPhase_wf tcg
  have hwfD : DictWF (ocg.foldl ocgStep (tcgPhase tcg)) :=
    ocgFold_wf ocg (tcgPhase tcg) hwfT
  have hres : fetch_banlist_from_api tcg ocg =
      dictValues (ocg.foldl ocgStep (tcgPhase tcg)) := rfl
  have hget : ∀ i, (ocg.foldl ocgStep (tcgPhase tcg)).get i =
      match lastWrite (fun c => c.id) i ocg with
      | some o =>
          match (tcgPhase tcg).get i with
          | some e => some (mergeShared e o)
          | none => some o
      | none => (tcgPhase tcg).get i :=
    fun i => ocgFold_get ocg hocg (tcgPhase tcg) i
  refine ⟨?_, ?_, ?_, ?_, ?_, ?_⟩
  · rw [hres, dictValues_map_id _ hwfD]
    exact hwfD.1
  · intro i
    rw [hres, dictValues_map_id _ hwfD, hwfD.2.1 i, hget i]
    cases ho : lastWrite (fun c => c.id) i ocg with
    | some o =>
        obtain ⟨homem, hokey⟩ := lastWrite_some_mem (fun c => c.id) i ocg o ho
        have hiocg : i ∈ ocg.map (fun c => c.id) :=
          hokey ▸ List.mem_map_of_mem (fun c => c.id) homem
        cases ht : (tcgPhase tcg).get i <;> simp [hiocg]
    | none =>
        rw [tcgPhase_get]
        cases ht : lastWrite (fun c => c.id) i tcg with
        | some t =>
            obtain ⟨htmem, htkey⟩ := lastWrite_some_mem (fun c => c.id) i tcg t ht
            have hitcg : i ∈ tcg.map (fun c => c.id) :=
              htkey ▸ List.mem_map_of_mem (fun c => c.id) htmem
            simp [hitcg]
        | none =>
            have h1 : i ∉ tcg.map (fun c => c.id) := by
              intro hmem
              obtain ⟨t, htmem, htkey⟩ := List.mem_map.mp hmem
              have := lastWrite_mem_nodup (fun c => c.id) tcg htcg t htmem
              rw [show (fun c : RawBanCard => c.id) t = i from htkey] at this
              rw [this] at ht
              exact Option.noConfusion ht
            have h2 : i ∉ ocg.map (fun c => c.id) := by
              intro hmem
              obtain ⟨o, homem, hokey⟩ := List.mem_map.mp hmem
              have := lastWrite_mem_nodup (fun c => c.id) ocg hocg o homem
              rw [show (fun c : RawBanCard => c.id) o = i from hokey] at this
              rw [ho] at this
              exact Option.noConfusion this
            simp [h1, h2]
  · intro t htmem hnot
    rw [hres, mem_dictValues _ hwfD, hget t.id]
    rw [lastWrite_eq_none (fun c => c.id) t.id ocg hnot]
    rw [tcgPhase_get]
    have := lastWrite_mem_nodup (fun c => c.id) tcg htcg t htmem
    rw [show (fun c : RawBanCard => c.id) t = t.id from rfl] at this
    rw [this]
  · intro o homem hnot
    rw [hres, mem_dictValues _ hwfD, hget o.id]
    have := lastWrite_mem_nodup (fun c => c.id) ocg hocg o homem
    rw [show (fun c : RawBanCard => c.id) o = o.id from rfl] at this
    rw [this, tcgPhase_get]
    rw [lastWrite_eq_none (fun c => c.id) o.id tcg hnot]
  · intro t htmem o homem heq
    rw [hres, mem_dictValues _ hwfD, mergeShared_id, hget t.id]
    have hoc := lastWrite_mem_nodup (fun c => c.id) ocg hocg o homem
    rw [show (fun c : RawBanCard => c.id) o = o.id from rfl, ← heq] at hoc
    rw [hoc, tcgPhase_get]
    have htc := lastWrite_mem_nodup (fun c => c.id) tcg htcg t htmem
    rw [show (fun c : RawBanCard => c.id) t = t.id from rfl] at htc
    rw [htc]
  · intro e o
    have hm : mergeShared e o =
        ⟨e.id, some (match (getInfo o.banlist_info).ban_ocg with
          | some v => { getInfo e.banlist_info with ban_ocg := some v }
          | none => getInfo e.banlist_info)⟩ := rfl
    refine ⟨rfl, ?_, ?_, ?_⟩ <;>
      (cases ho : (getInfo o.banlist_info).ban_ocg <;> rw [hm, ho] <;> simp [getInfo])

/-- TCG response of the merge witness: cards 1 and 2. -/
def tcgSample : List RawBanCard :=
  [⟨1, some ⟨some "Limited", none, none⟩⟩, ⟨2, some ⟨some "Forbidden", none, none⟩⟩]

/-- OCG response of the merge witness: cards 2 and 3. -/
def ocgSample : List RawBanCard :=
  [⟨2, some ⟨none, some "Forbidden", none⟩⟩, ⟨3, some ⟨none, some "Limited", none⟩⟩]

/-- Witness for C7 amended at a concrete input: TCG ids 1, 2 and OCG
ids 2, 3. -/
theorem C7_banlist_merge_witness :
    ((tcgSample.map (fun c => c.id)).Nodup ∧ (ocgSample.map (fun c => c.id)).Nodup) ∧
    (((fetch_banlist_from_api tcgSample ocgSample).map (fun c => c.id)).Nodup ∧
    (∀ i : Nat,
      i ∈ (fetch_banlist_from_api tcgSample ocgSample).map (fun c => c.id) ↔
        (i ∈ tcgSample.map (fun c => c.id) ∨ i ∈ ocgSample.map (fun c => c.id))) ∧
    (∀ t ∈ tcgSample, t.id ∉ ocgSample.map (fun c => c.id) →
      t ∈ fetch_banlist_from_api tcgSample ocgSample) ∧
    (∀ o ∈ ocgSample, o.id ∉ tcgSample.map (fun c => c.id) →
      o ∈ fetch_banlist_from_api tcgSample ocgSample) ∧
    (∀ t ∈ tcgSample, ∀ o ∈ ocgSample, t.id = o.id →
      mergeShared t o ∈ fetch_banlist_from_api tcgSample ocgSample) ∧
    (∀ e o : RawBanCard,
      (mergeShared e o).id = e.id ∧
      (getInfo (mergeShared e o).banlist_info).ban_tcg =
        (getInfo e.banlist_info).ban_tcg ∧
      (getInfo (mergeShared e o).banlist_info).ban_goat =
        (getInfo e.banlist_info).ban_goat ∧
      (getInfo (mergeShared e o).banlist_info).ban_ocg =
        (if (getInfo o.banlist_info).ban_ocg.isSome then
          (getInfo o.banlist_info).ban_ocg
         else (getInfo e.banlist_info).ban_ocg))) :=
  ⟨⟨by decide, by decide⟩,
   C7_banlist_merge tcgSample ocgSample (by decide) (by decide)⟩

end YgoPipeline
